import Mathlib

/-!
Verification of the AppTrust PROD rollback utility
(`scripts/apptrust_rollback.py`).

The development shallowly embeds the decision core of the script:
SemVer parsing (`SEMVER_RE` / `SemVer.parse`), SemVer comparison
(`compare_semver`), descending sorting (`sort_versions_by_semver_desc`),
eligible-snapshot construction (`get_prod_versions`), successor selection
(`pick_next_latest`), and the backup-then-patch rollback flow
(`backup_tag_then_patch` / `rollback_in_prod` / `main`).  Mutating client
calls are modelled as an explicit list of `PatchCall` values returned
alongside the outcome.
-/

namespace BookverseRollback

/- ------------------------- character helpers ------------------------- -/

/-- ASCII whitespace, modelling the regex class `\s` on the ASCII input
strings the tool handles (`\x0b` is vertical tab, `\x0c` form feed). -/
def isSpaceChar (c : Char) : Bool :=
  c = ' ' || c = '\t' || c = '\n' || c = '\r' || c = Char.ofNat 11 || c = Char.ofNat 12

/-- ASCII digit, modelling the regex class `\d` / Python `str.isdigit`
on the ASCII tokens produced by `SEMVER_RE`. -/
def isDigitChar (c : Char) : Bool :=
  c.isDigit

/-- A character allowed inside a prerelease or build identifier:
`[0-9a-zA-Z-]` in `SEMVER_RE`. -/
def isTokChar (c : Char) : Bool :=
  c.isDigit || c.isAlpha || c = '-'

/-- Decimal value of a digit string, modelling Python `int(...)` on the
all-digit tokens it is applied to. -/
def digitsToNat (cs : List Char) : Nat :=
  cs.foldl (fun n c => n * 10 + (c.toNat - 48)) 0

/- ------------------------- SemVer parsing ------------------------- -/

/-- Semantic version value object (`@dataclass SemVer` in the source):
`major`, `minor`, `patch`, tuple of prerelease tokens (empty for GA), and
the original literal string. -/
structure SemVer where
  major : Nat
  minor : Nat
  patch : Nat
  prerelease : List String
  original : String
deriving DecidableEq, Repr

/-- Parse one numeric component matching `0|[1-9]\d*` in `SEMVER_RE`:
a maximal digit run, rejected when empty or when it has a leading zero
(the regex cannot match a shorter digit run because the next pattern
element never matches a digit). Returns the value and the rest. -/
def parseNum (cs : List Char) : Option (Nat × List Char) :=
  let ds := cs.takeWhile isDigitChar
  let rest := cs.dropWhile isDigitChar
  match ds with
  | [] => none
  | c :: tl =>
    if c = '0' && !tl.isEmpty then none
    else some (digitsToNat ds, rest)

/-- Validity of one prerelease identifier per
`0|[1-9]\d*|[a-zA-Z-][0-9a-zA-Z-]*`: an all-digit token must have no
leading zero (unless it is exactly "0"); otherwise the first character
must be a letter or a hyphen. -/
def preTokOk (t : List Char) : Bool :=
  match t with
  | [] => false
  | c :: tl =>
    if (c :: tl).all isDigitChar then !(c = '0' && !tl.isEmpty)
    else c.isAlpha || c = '-'

/-- Validity of one build identifier per `[0-9a-zA-Z-]+`: nonempty. -/
def buildTokOk (t : List Char) : Bool :=
  !t.isEmpty

/-- Fuelled worker for `parseDotted`; each recursive call consumes at
least the separating dot, so fuel `cs.length + 1` never runs out. -/
def parseDottedAux (tokOk : List Char → Bool) :
    Nat → List Char → Option (List String × List Char)
  | 0, _ => none
  | fuel + 1, cs =>
    let t := cs.takeWhile isTokChar
    if tokOk t then
      match cs.dropWhile isTokChar with
      | '.' :: rest2 =>
        match parseDottedAux tokOk fuel rest2 with
        | some (ts, r) => some (String.mk t :: ts, r)
        | none => none
      | rest => some ([String.mk t], rest)
    else none

/-- Parse a dot-separated identifier sequence (the `PRERELEASE` or `BUILD`
group of `SEMVER_RE`): each identifier is the maximal run of
`[0-9a-zA-Z-]` characters, validated by `tokOk`; identifiers are separated
by `.`. Fails when any identifier is invalid, exactly as the anchored
regex fails then. -/
def parseDotted (tokOk : List Char → Bool) (cs : List Char) :
    Option (List String × List Char) :=
  parseDottedAux tokOk (cs.length + 1) cs

/-- `SemVer.parse`, modelling `SEMVER_RE.match` + group extraction:
`\s* v? MAJOR . MINOR . PATCH (-PRERELEASE)? (+BUILD)? \s*`, anchored at
both ends; `None` when the regex does not match. -/
def SemVer.parse (version : String) : Option SemVer :=
  let cs0 := version.data.dropWhile isSpaceChar
  let cs := match cs0 with
    | 'v' :: r => r
    | _ => cs0
  match parseNum cs with
  | none => none
  | some (major, r1) =>
    match r1 with
    | '.' :: r2 =>
      match parseNum r2 with
      | none => none
      | some (minor, r3) =>
        match r3 with
        | '.' :: r4 =>
          match parseNum r4 with
          | none => none
          | some (patch, r5) =>
            let pre? : Option (List String × List Char) :=
              match r5 with
              | '-' :: r6 => parseDotted preTokOk r6
              | _ => some ([], r5)
            match pre? with
            | none => none
            | some (prerelease, r7) =>
              let build? : Option (List Char) :=
                match r7 with
                | '+' :: r8 => (parseDotted buildTokOk r8).map (fun t => t.2)
                | _ => some r7
              match build? with
              | none => none
              | some r9 =>
                if (r9.dropWhile isSpaceChar).isEmpty then
                  some ⟨major, minor, patch, prerelease, version⟩
                else none
        | _ => none
    | _ => none

/- ------------------------- SemVer comparison ------------------------- -/

/-- Lexicographic strict order on character lists by code point,
modelling Python string `<`. -/
def listLtB : List Char → List Char → Bool
  | [], [] => false
  | [], _ :: _ => true
  | _ :: _, [] => false
  | c :: cs, d :: ds =>
    if c.toNat < d.toNat then true
    else if d.toNat < c.toNat then false
    else listLtB cs ds

/-- Python string `<` on the underlying character lists. -/
def strLtB (a b : String) : Bool :=
  listLtB a.data b.data

/-- Python `str.isdigit` on ASCII tokens: nonempty and all digits. -/
def isNumTok (t : String) : Bool :=
  !t.data.isEmpty && t.data.all isDigitChar

/-- Python `int(...)` on a token. -/
def tokToNat (t : String) : Nat :=
  digitsToNat t.data

/-- One iteration of the prerelease-identifier loop in `compare_semver`:
equal tokens continue (0); two numeric tokens compare by value; a numeric
token has lower precedence than a non-numeric one; two non-numeric tokens
compare lexicographically. -/
def tokCompare (a b : String) : Int :=
  if a = b then 0
  else if isNumTok a && isNumTok b then
    (if tokToNat a < tokToNat b then -1
     else if tokToNat b < tokToNat a then 1
     else 0)
  else if isNumTok a && !isNumTok b then -1
  else if !isNumTok a && isNumTok b then 1
  else if strLtB a b then -1 else 1

/-- The prerelease part of `compare_semver`: the `zip` loop over the two
token tuples followed by the length comparison (shorter list has lower
precedence). -/
def cmpPre : List String → List String → Int
  | [], [] => 0
  | [], _ :: _ => -1
  | _ :: _, [] => 1
  | a :: as, b :: bs =>
    if tokCompare a b = 0 then cmpPre as bs else tokCompare a b

/-- `compare_semver` from the source: major, minor, patch numerically;
GA (empty prerelease) outranks prerelease; otherwise the token loop and
length comparison of `cmpPre`. -/
def compare_semver (a b : SemVer) : Int :=
  if a.major ≠ b.major then (if a.major < b.major then -1 else 1)
  else if a.minor ≠ b.minor then (if a.minor < b.minor then -1 else 1)
  else if a.patch ≠ b.patch then (if a.patch < b.patch then -1 else 1)
  else if a.prerelease = [] ∧ b.prerelease ≠ [] then 1
  else if a.prerelease ≠ [] ∧ b.prerelease = [] then -1
  else cmpPre a.prerelease b.prerelease

/-- `compare_semver` applied to two parsed strings, `none` when either
fails to parse. -/
def parseCmp (s t : String) : Option Int :=
  match SemVer.parse s, SemVer.parse t with
  | some a, some b => some (compare_semver a b)
  | _, _ => none

/- ------------------------- descending sort ------------------------- -/

/-- Stable descending insertion: a later element passes every earlier
element it does not strictly exceed under `compare_semver`, matching the
tie behaviour of Python's stable `list.sort(key=..., reverse=True)`. -/
def insertDescSemver (x : SemVer × String) :
    List (SemVer × String) → List (SemVer × String)
  | [] => [x]
  | y :: ys =>
    if compare_semver x.1 y.1 > 0 then x :: y :: ys
    else y :: insertDescSemver x ys

/-- Stable descending sort by `compare_semver` (insertion sort). -/
def sortDescSemver (l : List (SemVer × String)) : List (SemVer × String) :=
  l.foldl (fun acc x => insertDescSemver x acc) []

/-- `sort_versions_by_semver_desc` from the source: drop unparseable
strings, then sort descending by `compare_semver` and return the original
strings.  The source performs two stable sorts — first by the tuple
`(major, minor, patch, GA-flag)`, then by the full comparator; since
comparator-equal versions always have equal tuples, the first sort never
reorders comparator ties and the net effect is exactly one stable
descending sort by `compare_semver` over the input order. -/
def sort_versions_by_semver_desc (version_strings : List String) : List String :=
  let parsed := version_strings.filterMap
    (fun v => (SemVer.parse v).map (fun sv => (sv, v)))
  (sortDescSemver parsed).map (fun t => t.2)

/- ------------------------- snapshot records ------------------------- -/

/-- `TRUSTED_RELEASE` status constant. -/
def TRUSTED : String := "TRUSTED_RELEASE"

/-- `RELEASED` status constant. -/
def RELEASED : String := "RELEASED"

/-- The quarantine tag constant. -/
def QUARANTINE_TAG : String := "quarantine"

/-- The latest tag constant. -/
def LATEST_TAG : String := "latest"

/-- Backup property key written before reassigning `latest`. -/
def BACKUP_BEFORE_LATEST : String := "original_tag_before_latest"

/-- Backup property key written before quarantining. -/
def BACKUP_BEFORE_QUARANTINE : String := "original_tag_before_quarantine"

/-- One raw entry of the registry's version listing: each field may be
missing from the JSON object (`none`). -/
structure RawRecord where
  version : Option String
  tag : Option String
  release_status : Option String
deriving DecidableEq, Repr

/-- One normalized record produced by `get_prod_versions`:
`{"version": ver, "tag": tag_str, "release_status": rs}`. -/
structure NormRecord where
  version : String
  tag : String
  release_status : String
deriving DecidableEq, Repr

/-- ASCII uppercase, modelling Python `str.upper()` on the ASCII status
strings. -/
def strUpper (s : String) : String :=
  String.mk (s.data.map Char.toUpper)

/-- Field normalization in `get_prod_versions`: missing `version` becomes
`""`, a `None` tag becomes `""`, `release_status` is uppercased. -/
def normalizeRecord (v : RawRecord) : NormRecord :=
  { version := v.version.getD ""
    tag := v.tag.getD ""
    release_status := strUpper (v.release_status.getD "") }

/-- The eligibility filter of `get_prod_versions`: keep records whose
uppercased `release_status` is `TRUSTED_RELEASE` or `RELEASED`. -/
def eligibleRecords (versions : List RawRecord) : List NormRecord :=
  (versions.map normalizeRecord).filter
    (fun r => r.release_status == TRUSTED || r.release_status == RELEASED)

/-- Index of the last occurrence of `v` in `l`, modelling the dict
comprehension `{ver: i for i, ver in enumerate(order)}` (later entries
overwrite earlier ones). -/
def lastIndexOf (l : List String) (v : String) : Option Nat :=
  match l with
  | [] => none
  | x :: xs =>
    match lastIndexOf xs v with
    | some i => some (i + 1)
    | none => if x = v then some 0 else none

/-- Stable ascending insertion by a `Nat` key, matching Python's stable
`list.sort(key=...)`. -/
def insertAscByKey (key : NormRecord → Nat) (x : NormRecord) :
    List NormRecord → List NormRecord
  | [] => [x]
  | y :: ys =>
    if key x < key y then x :: y :: ys
    else y :: insertAscByKey key x ys

/-- Stable ascending sort by a `Nat` key (insertion sort). -/
def sortAscByKey (key : NormRecord → Nat) (l : List NormRecord) : List NormRecord :=
  l.foldl (fun acc x => insertAscByKey key x acc) []

/-- `get_prod_versions` from the source, applied to the snapshot list the
client returned: normalize and filter to eligible records, then stable
sort by the position of each record's version string in the
SemVer-descending order (`index.get(x["version"], 10**9)` sends records
whose version did not parse to the end, keeping their relative order). -/
def get_prod_versions (versions : List RawRecord) : List NormRecord :=
  let norm := eligibleRecords versions
  let order := sort_versions_by_semver_desc (norm.map (fun v => v.version))
  sortAscByKey (fun r => (lastIndexOf order r.version).getD (10 ^ 9)) norm

/- ------------------------- successor selection ------------------------- -/

/-- The record filter shared by `dup_map` construction in
`pick_next_latest`: skip the excluded target version and quarantined
records. -/
def keptPred (exclude_version : String) (v : NormRecord) : Bool :=
  v.version != exclude_version && v.tag != QUARANTINE_TAG

/-- The `seen`/`ordered_unique` loop in `pick_next_latest`: keep the
first occurrence of each string, tracking already-seen strings. -/
def orderedUniqueAux (seen : List String) : List String → List String
  | [] => []
  | v :: vs =>
    if seen.contains v then orderedUniqueAux seen vs
    else v :: orderedUniqueAux (v :: seen) vs

/-- First-occurrence deduplication (`ordered_unique` with an empty
`seen` set). -/
def firstDedup (l : List String) : List String :=
  orderedUniqueAux [] l

/-- The tie-break of the selection algorithm, applied to all records
sharing one version string: prefer the first `TRUSTED_RELEASE` record,
else the first record. -/
def specTieBreak (cands : List NormRecord) : Option NormRecord :=
  match cands.filter (fun v => v.release_status == TRUSTED) with
  | t :: _ => some t
  | [] => cands.head?

/-- `pick_next_latest` from the source: group non-excluded, non-quarantined
records by version string (`dup_map`), return `None` when the group map is
empty, otherwise walk the input order to list distinct version strings
whose groups are nonempty (`ordered_unique`), take the first, and within
its group prefer a `TRUSTED_RELEASE` record, else the first record. -/
def pick_next_latest (sorted_prod_versions : List NormRecord)
    (exclude_version : String) : Option NormRecord :=
  let kept := sorted_prod_versions.filter (keptPred exclude_version)
  if kept.isEmpty then none
  else
    let keys := kept.map (fun v => v.version)
    let ordered_unique := firstDedup
      ((sorted_prod_versions.filter
          (fun v => v.version != exclude_version && keys.contains v.version)).map
        (fun v => v.version))
    match ordered_unique with
    | [] => none
    | ver :: _ =>
      let cands := kept.filter (fun v => v.version == ver)
      match cands.filter (fun v => v.release_status == TRUSTED) with
      | t :: _ => some t
      | [] => cands.head?

/- ------------------------- rollback flow ------------------------- -/

/-- One mutating `patch_application_version` call as issued by the
rollback flow: the patched version, the new tag, and the replaced
properties. -/
structure PatchCall where
  version : String
  tag : Option String
  properties : Option (List (String × List String))
deriving DecidableEq, Repr

/-- `backup_tag_then_patch` from the source, returning the mutating calls
it issues: a single combined patch carrying the backup property (the
pre-mutation tag as a one-element list) and the new tag, or nothing in
dry-run mode. -/
def backup_tag_then_patch (version backup_prop_key new_tag current_tag : String)
    (dry_run : Bool) : List PatchCall :=
  if dry_run then []
  else [{ version := version
          tag := some new_tag
          properties := some [(backup_prop_key, [current_tag])] }]

/-- Terminal outcome of `rollback_in_prod`, mirroring its three success
exits (the printed status lines). -/
inductive RollbackOutcome where
  | noSuccessor
  | reassignedLatest (version : String)
  | rolledBackNonLatest
deriving DecidableEq, Repr

/-- Last-entry lookup, modelling `{v["version"]: v for v in prod_versions}`
followed by `.get(target_version)` (later entries overwrite earlier). -/
def lookupLast (l : List NormRecord) (ver : String) : Option NormRecord :=
  match l with
  | [] => none
  | x :: xs =>
    match lookupLast xs ver with
    | some r => some r
    | none => if x.version = ver then some x else none

/-- `rollback_in_prod` from the source, over the snapshot the client
returned: build the eligible sorted set, look up the target by literal
string (`RuntimeError` when absent), quarantine the target with a backup
patch, and when the target held `latest`, reassign `latest` to the picked
successor with a backup patch.  The second component is the list of
mutating client calls issued. -/
def rollback_in_prod (versions : List RawRecord) (target_version : String)
    (dry_run : Bool) : Except String RollbackOutcome × List PatchCall :=
  let prod_versions := get_prod_versions versions
  match lookupLast prod_versions target_version with
  | none =>
    (Except.error ("Target version not found in PROD set: " ++ target_version), [])
  | some target =>
    let current_tag := target.tag
    let had_latest := current_tag == LATEST_TAG
    let log1 := backup_tag_then_patch target_version BACKUP_BEFORE_QUARANTINE
      QUARANTINE_TAG current_tag dry_run
    if had_latest then
      match pick_next_latest prod_versions target_version with
      | none => (Except.ok RollbackOutcome.noSuccessor, log1)
      | some cand =>
        (Except.ok (RollbackOutcome.reassignedLatest cand.version),
         log1 ++ backup_tag_then_patch cand.version BACKUP_BEFORE_LATEST
           LATEST_TAG cand.tag dry_run)
    else (Except.ok RollbackOutcome.rolledBackNonLatest, log1)

/-- The exit code of `main` for a given snapshot, target and dry-run flag,
modelling its try/except around `rollback_in_prod` (a raised error yields
exit code 1, success yields 0). -/
def mainExitCode (versions : List RawRecord) (target_version : String)
    (dry_run : Bool) : Nat :=
  match (rollback_in_prod versions target_version dry_run).1 with
  | Except.ok _ => 0
  | Except.error _ => 1

/- ------------------------- comparator laws ------------------------- -/

/-- Laws of a three-valued comparator: reflexive zero, antisymmetric by
negation, values in `{-1, 0, 1}`, transitive strict part, and zero means
interchangeable on the left. -/
structure IsCmp {α : Type _} (f : α → α → Int) : Prop where
  refl : ∀ a, f a a = 0
  neg : ∀ a b, f a b = -(f b a)
  range : ∀ a b, f a b = -1 ∨ f a b = 0 ∨ f a b = 1
  trans : ∀ a b c, f a b = -1 → f b c = -1 → f a c = -1
  congr : ∀ a b c, f a b = 0 → f a c = f b c

theorem IsCmp.congrR {α : Type _} {f : α → α → Int} (hf : IsCmp f)
    (a b c : α) (h : f a b = 0) : f c a = f c b := by
  have h2 : f b a = 0 := by
    have := hf.neg b a
    rw [hf.neg a b] at h
    omega
  rw [hf.neg c a, hf.neg c b, hf.congr b a c h2]

/-- Lexicographic composition of two comparators. -/
def cmpThen {α : Type _} (f g : α → α → Int) (a b : α) : Int :=
  if f a b = 0 then g a b else f a b

theorem IsCmp.cmpThen {α : Type _} {f g : α → α → Int}
    (hf : IsCmp f) (hg : IsCmp g) : IsCmp (cmpThen f g) := by
  constructor
  · intro a
    simp [BookverseRollback.cmpThen, hf.refl, hg.refl]
  · intro a b
    by_cases h : f a b = 0
    · have h2 : f b a = 0 := by have := hf.neg a b; omega
      simp [BookverseRollback.cmpThen, h, h2, hg.neg a b]
    · have h2 : f b a ≠ 0 := by have := hf.neg a b; omega
      simp [BookverseRollback.cmpThen, h, h2, hf.neg a b]
  · intro a b
    by_cases h : f a b = 0
    · simpa [BookverseRollback.cmpThen, h] using hg.range a b
    · simpa [BookverseRollback.cmpThen, h] using hf.range a b
  · intro a b c hab hbc
    by_cases h1 : f a b = 0
    · have hg1 : g a b = -1 := by simpa [BookverseRollback.cmpThen, h1] using hab
      have hfa : f a c = f b c := hf.congr a b c h1
      by_cases h2 : f b c = 0
      · have hg2 : g b c = -1 := by simpa [BookverseRollback.cmpThen, h2] using hbc
        have : f a c = 0 := by rw [hfa]; exact h2
        simp [BookverseRollback.cmpThen, this, hg.trans a b c hg1 hg2]
      · have hf2 : f b c = -1 := by simpa [BookverseRollback.cmpThen, h2] using hbc
        have : f a c = -1 := by rw [hfa]; exact hf2
        simp [BookverseRollback.cmpThen, this]
    · have hf1 : f a b = -1 := by simpa [BookverseRollback.cmpThen, h1] using hab
      by_cases h2 : f b c = 0
      · have : f a b = f a c := hf.congrR b c a h2
        rw [hf1] at this
        simp [BookverseRollback.cmpThen, ← this]
      · have hf2 : f b c = -1 := by simpa [BookverseRollback.cmpThen, h2] using hbc
        have : f a c = -1 := hf.trans a b c hf1 hf2
        simp [BookverseRollback.cmpThen, this]
  · intro a b c h
    have hf0 : f a b = 0 := by
      by_cases h1 : f a b = 0
      · exact h1
      · simp [BookverseRollback.cmpThen, h1] at h
    have hg0 : g a b = 0 := by simpa [BookverseRollback.cmpThen, hf0] using h
    have hfc : f a c = f b c := hf.congr a b c hf0
    have hgc : g a c = g b c := hg.congr a b c hg0
    by_cases h2 : f a c = 0
    · have : f b c = 0 := by rw [← hfc]; exact h2
      simp [BookverseRollback.cmpThen, h2, this, hgc]
    · have : f b c ≠ 0 := by rw [← hfc]; exact h2
      simp [BookverseRollback.cmpThen, h2, this, hfc]

theorem IsCmp.comap {α β : Type _} {f : α → α → Int} (hf : IsCmp f)
    (π : β → α) : IsCmp (fun x y => f (π x) (π y)) := by
  constructor
  · intro a
    exact hf.refl (π a)
  · intro a b
    exact hf.neg (π a) (π b)
  · intro a b
    exact hf.range (π a) (π b)
  · intro a b c
    exact hf.trans (π a) (π b) (π c)
  · intro a b c
    exact hf.congr (π a) (π b) (π c)

theorem IsCmp.ofEq {α : Type _} {f g : α → α → Int}
    (h : ∀ a b, f a b = g a b) (hg : IsCmp g) : IsCmp f := by
  constructor
  · intro a
    rw [h]; exact hg.refl a
  · intro a b
    rw [h, h]; exact hg.neg a b
  · intro a b
    rw [h]; exact hg.range a b
  · intro a b c h1 h2
    rw [h] at h1 h2 ⊢
    exact hg.trans a b c h1 h2
  · intro a b c h1
    rw [h] at h1 ⊢
    rw [h]
    exact hg.congr a b c h1

/- ------------------------- component comparators ------------------------- -/

/-- Three-valued comparison of naturals. -/
def natCmp (m n : Nat) : Int :=
  if m < n then -1 else if n < m then 1 else 0

theorem isCmp_natCmp : IsCmp natCmp := by
  constructor
  · intro a
    simp [natCmp]
  · intro a b
    rcases Nat.lt_trichotomy a b with h | h | h
    · simp [natCmp, h, Nat.lt_asymm h]
    · simp [natCmp, h]
    · simp [natCmp, h, Nat.lt_asymm h]
  · intro a b
    unfold natCmp
    split <;> [left; skip]
    · rfl
    · split <;> [right; right] <;> simp
  · intro a b c h1 h2
    have hab : a < b := by
      by_cases h : a < b
      · exact h
      · simp [natCmp, h] at h1
        split at h1 <;> omega
    have hbc : b < c := by
      by_cases h : b < c
      · exact h
      · simp [natCmp, h] at h2
        split at h2 <;> omega
    simp [natCmp, Nat.lt_trans hab hbc]
  · intro a b c h
    have hab : a = b := by
      unfold natCmp at h
      split at h <;> [omega; skip]
      split at h <;> omega
    rw [hab]

theorem charToNat_inj {c d : Char} (h : c.toNat = d.toNat) : c = d := by
  have hv : c.val = d.val := by
    apply UInt32.ext
    simpa [Char.toNat] using h
  exact Char.eq_of_val_eq hv

theorem listLtB_cons (x y : Char) (xs ys : List Char) :
    listLtB (x :: xs) (y :: ys) =
      (if x.toNat < y.toNat then true
       else if y.toNat < x.toNat then false
       else listLtB xs ys) := rfl

theorem listLtB_irrefl (l : List Char) : listLtB l l = false := by
  induction l with
  | nil => rfl
  | cons c cs ih => simp [listLtB, ih]

theorem listLtB_asymm : ∀ {a b : List Char},
    listLtB a b = true → listLtB b a = false := by
  intro a
  induction a with
  | nil =>
    intro b h
    cases b with
    | nil => simpa [listLtB] using h
    | cons y ys => simp [listLtB]
  | cons x xs ih =>
    intro b h
    cases b with
    | nil => simp [listLtB] at h
    | cons y ys =>
      rw [listLtB_cons] at h ⊢
      by_cases hxy : x.toNat < y.toNat
      · have h1 : ¬ y.toNat < x.toNat := by omega
        simp [h1, hxy]
      · by_cases hyx : y.toNat < x.toNat
        · simp [hxy, hyx] at h
        · have h' : listLtB xs ys = true := by simpa [hxy, hyx] using h
          simp [hxy, hyx, ih h']

theorem listLtB_connex : ∀ {a b : List Char},
    listLtB a b = false → listLtB b a = false → a = b := by
  intro a
  induction a with
  | nil =>
    intro b h1 h2
    cases b with
    | nil => rfl
    | cons y ys => simp [listLtB] at h1
  | cons x xs ih =>
    intro b h1 h2
    cases b with
    | nil => simp [listLtB] at h2
    | cons y ys =>
      rw [listLtB_cons] at h1 h2
      by_cases hxy : x.toNat < y.toNat
      · simp [hxy] at h1
      · by_cases hyx : y.toNat < x.toNat
        · simp [hyx, hxy] at h2
        · have hx : x = y := charToNat_inj (by omega)
          have h1' : listLtB xs ys = false := by simpa [hxy, hyx] using h1
          have h2' : listLtB ys xs = false := by simpa [hxy, hyx] using h2
          rw [hx, ih h1' h2']

theorem listLtB_trans : ∀ {a b c : List Char},
    listLtB a b = true → listLtB b c = true → listLtB a c = true := by
  intro a
  induction a with
  | nil =>
    intro b c hab hbc
    cases c with
    | nil =>
      cases b with
      | nil => simpa [listLtB] using hab
      | cons y ys => simpa [listLtB] using hbc
    | cons z zs => simp [listLtB]
  | cons x xs ih =>
    intro b c hab hbc
    cases b with
    | nil => simp [listLtB] at hab
    | cons y ys =>
      cases c with
      | nil => simp [listLtB] at hbc
      | cons z zs =>
        rw [listLtB_cons] at hab hbc ⊢
        by_cases h1 : x.toNat < y.toNat
        · by_cases h2 : y.toNat < z.toNat
          · have : x.toNat < z.toNat := by omega
            simp [this]
          · by_cases h3 : z.toNat < y.toNat
            · simp [h2, h3] at hbc
            · have : x.toNat < z.toNat := by omega
              simp [this]
        · by_cases h4 : y.toNat < x.toNat
          · simp [h1, h4] at hab
          · by_cases h2 : y.toNat < z.toNat
            · have : x.toNat < z.toNat := by omega
              simp [this]
            · by_cases h3 : z.toNat < y.toNat
              · simp [h2, h3] at hbc
              · have hab' : listLtB xs ys = true := by simpa [h1, h4] using hab
                have hbc' : listLtB ys zs = true := by simpa [h2, h3] using hbc
                have e1 : ¬ x.toNat < z.toNat := by omega
                have e2 : ¬ z.toNat < x.toNat := by omega
                simp [e1, e2, ih hab' hbc']

theorem stringDataInj {s t : String} (h : s.data = t.data) : s = t := by
  cases s
  cases t
  simp_all

/-- Three-valued comparison of strings by Python `<`. -/
def strCmp (s t : String) : Int :=
  if s = t then 0 else if strLtB s t then -1 else 1

theorem strLtB_of_strCmp {s t : String} (h : strCmp s t = -1) :
    s ≠ t ∧ strLtB s t = true := by
  unfold strCmp at h
  split at h
  · omega
  · split at h
    · constructor
      · assumption
      · assumption
    · omega

theorem isCmp_strCmp : IsCmp strCmp := by
  constructor
  · intro a
    simp [strCmp]
  · intro a b
    by_cases hab : a = b
    · simp [strCmp, hab]
    · have hba : ¬ b = a := fun h => hab h.symm
      by_cases hlt : strLtB a b = true
      · have : strLtB b a = false := listLtB_asymm hlt
        simp [strCmp, hab, hba, hlt, this]
      · have hlt' : strLtB a b = false := by
          revert hlt
          cases strLtB a b <;> simp
        have : strLtB b a = true := by
          by_cases h2 : strLtB b a = true
          · exact h2
          · have h2' : strLtB b a = false := by
              revert h2
              cases strLtB b a <;> simp
            exact absurd (stringDataInj (listLtB_connex hlt' h2')) hab
        simp [strCmp, hab, hba, hlt', this]
  · intro a b
    unfold strCmp
    split
    · right; left; rfl
    · split
      · left; rfl
      · right; right; rfl
  · intro a b c h1 h2
    obtain ⟨hne1, hlt1⟩ := strLtB_of_strCmp h1
    obtain ⟨hne2, hlt2⟩ := strLtB_of_strCmp h2
    have hlt : strLtB a c = true := listLtB_trans hlt1 hlt2
    have hne : a ≠ c := by
      intro h
      subst h
      have : strLtB a a = false := listLtB_irrefl a.data
      rw [this] at hlt
      exact absurd hlt (by simp)
    simp [strCmp, hne, hlt]
  · intro a b c h
    have hab : a = b := by
      unfold strCmp at h
      split at h
      · assumption
      · split at h <;> omega
    rw [hab]

/-- Comparison of token keys: numeric tokens (by value) sort below
non-numeric tokens (by string). -/
def sumCmp : Sum Nat String → Sum Nat String → Int
  | Sum.inl m, Sum.inl n => natCmp m n
  | Sum.inl _, Sum.inr _ => -1
  | Sum.inr _, Sum.inl _ => 1
  | Sum.inr s, Sum.inr t => strCmp s t

theorem isCmp_sumCmp : IsCmp sumCmp := by
  constructor
  · intro a
    rcases a with m | s
    · exact isCmp_natCmp.refl m
    · exact isCmp_strCmp.refl s
  · intro a b
    rcases a with m | s <;> rcases b with n | t <;> simp [sumCmp]
    · exact isCmp_natCmp.neg m n
    · exact isCmp_strCmp.neg s t
  · intro a b
    rcases a with m | s <;> rcases b with n | t <;> simp [sumCmp]
    · exact isCmp_natCmp.range m n
    · exact isCmp_strCmp.range s t
  · intro a b c h1 h2
    rcases a with m | s
    · rcases b with n | t
      · rcases c with k | u
        · exact isCmp_natCmp.trans m n k h1 h2
        · rfl
      · rcases c with k | u
        · simp [sumCmp] at h2
        · rfl
    · rcases b with n | t
      · simp [sumCmp] at h1
      · rcases c with k | u
        · simp [sumCmp] at h2
        · exact isCmp_strCmp.trans s t u h1 h2
  · intro a b c h
    rcases a with m | s
    · rcases b with n | t
      · rcases c with k | u
        · exact isCmp_natCmp.congr m n k h
        · rfl
      · simp [sumCmp] at h
    · rcases b with n | t
      · simp [sumCmp] at h
      · rcases c with k | u
        · rfl
        · exact isCmp_strCmp.congr s t u h

/-- Sort key of one prerelease token in `compare_semver`. -/
def tokKey (t : String) : Sum Nat String :=
  if isNumTok t then Sum.inl (tokToNat t) else Sum.inr t

theorem tokCompare_eq_key (a b : String) :
    tokCompare a b = sumCmp (tokKey a) (tokKey b) := by
  by_cases hab : a = b
  · subst hab
    by_cases hn : isNumTok a = true
    · simp [tokCompare, tokKey, hn, sumCmp, natCmp]
    · simp [tokCompare, tokKey, hn, sumCmp, strCmp]
  · by_cases ha : isNumTok a = true <;> by_cases hb : isNumTok b = true
    · simp [tokCompare, tokKey, hab, ha, hb, sumCmp, natCmp]
    · simp [tokCompare, tokKey, hab, ha, hb, sumCmp]
    · simp [tokCompare, tokKey, hab, ha, hb, sumCmp]
    · simp [tokCompare, tokKey, hab, ha, hb, sumCmp, strCmp]

theorem isCmp_tokCompare : IsCmp tokCompare :=
  IsCmp.ofEq tokCompare_eq_key (isCmp_sumCmp.comap tokKey)

theorem isCmp_cmpPre : IsCmp cmpPre := by
  constructor
  · intro a
    induction a with
    | nil => rfl
    | cons x xs ih => simp [cmpPre, isCmp_tokCompare.refl x, ih]
  · intro a
    induction a with
    | nil =>
      intro b
      cases b <;> simp [cmpPre]
    | cons x xs ih =>
      intro b
      cases b with
      | nil => simp [cmpPre]
      | cons y ys =>
        by_cases h : tokCompare x y = 0
        · have h2 : tokCompare y x = 0 := by
            have := isCmp_tokCompare.neg x y
            omega
          simp [cmpPre, h, h2, ih ys]
        · have h2 : tokCompare y x ≠ 0 := by
            have := isCmp_tokCompare.neg x y
            omega
          simp [cmpPre, h, h2]
          have := isCmp_tokCompare.neg x y
          omega
  · intro a
    induction a with
    | nil =>
      intro b
      cases b <;> simp [cmpPre]
    | cons x xs ih =>
      intro b
      cases b with
      | nil => simp [cmpPre]
      | cons y ys =>
        by_cases h : tokCompare x y = 0
        · simpa [cmpPre, h] using ih ys
        · simpa [cmpPre, h] using isCmp_tokCompare.range x y
  · intro a
    induction a with
    | nil =>
      intro b c hab hbc
      cases b with
      | nil => simp [cmpPre] at hab
      | cons y ys =>
        cases c with
        | nil => simp [cmpPre] at hbc
        | cons z zs => simp [cmpPre]
    | cons x xs ih =>
      intro b c hab hbc
      cases b with
      | nil => simp [cmpPre] at hab
      | cons y ys =>
        cases c with
        | nil => simp [cmpPre] at hbc
        | cons z zs =>
          simp only [cmpPre] at hab hbc ⊢
          by_cases h1 : tokCompare x y = 0
          · rw [if_pos h1] at hab
            by_cases h2 : tokCompare y z = 0
            · rw [if_pos h2] at hbc
              have hxz : tokCompare x z = 0 := by
                rw [isCmp_tokCompare.congr x y z h1]
                exact h2
              rw [if_pos hxz]
              exact ih ys zs hab hbc
            · rw [if_neg h2] at hbc
              have hxz : tokCompare x z = -1 := by
                rw [isCmp_tokCompare.congr x y z h1]
                exact hbc
              rw [if_neg (by omega), hxz]
          · rw [if_neg h1] at hab
            by_cases h2 : tokCompare y z = 0
            · have hxz : tokCompare x y = tokCompare x z :=
                isCmp_tokCompare.congrR y z x h2
              rw [hab] at hxz
              rw [if_neg (by omega)]
              omega
            · rw [if_neg h2] at hbc
              have hxz : tokCompare x z = -1 :=
                isCmp_tokCompare.trans x y z hab hbc
              rw [if_neg (by omega), hxz]
  · intro a
    induction a with
    | nil =>
      intro b c h
      cases b with
      | nil => rfl
      | cons y ys => simp [cmpPre] at h
    | cons x xs ih =>
      intro b c h
      cases b with
      | nil => simp [cmpPre] at h
      | cons y ys =>
        have h1 : tokCompare x y = 0 ∧ cmpPre xs ys = 0 := by
          by_cases hxy : tokCompare x y = 0
          · exact ⟨hxy, by simpa [cmpPre, hxy] using h⟩
          · simp [cmpPre, hxy] at h
        cases c with
        | nil => simp [cmpPre]
        | cons z zs =>
          simp only [cmpPre]
          have hxz : tokCompare x z = tokCompare y z :=
            isCmp_tokCompare.congr x y z h1.1
          rw [hxz]
          by_cases h2 : tokCompare y z = 0
          · simp [h2, ih ys zs h1.2]
          · simp [h2]

/-- The prerelease component of `compare_semver` including the
GA-outranks-prerelease rule. -/
def gaPre (p q : List String) : Int :=
  if p = [] ∧ q ≠ [] then 1
  else if p ≠ [] ∧ q = [] then -1
  else cmpPre p q

theorem isCmp_gaPre : IsCmp gaPre := by
  constructor
  · intro p
    cases p with
    | nil => simp [gaPre, cmpPre]
    | cons x xs => simp [gaPre, isCmp_cmpPre.refl]
  · intro p q
    cases p with
    | nil =>
      cases q with
      | nil => simp [gaPre, cmpPre]
      | cons y ys => simp [gaPre]
    | cons x xs =>
      cases q with
      | nil => simp [gaPre]
      | cons y ys =>
        simp only [gaPre]
        rw [if_neg (by simp), if_neg (by simp), if_neg (by simp), if_neg (by simp)]
        exact isCmp_cmpPre.neg (x :: xs) (y :: ys)
  · intro p q
    cases p with
    | nil =>
      cases q with
      | nil => simp [gaPre, cmpPre]
      | cons y ys => simp [gaPre]
    | cons x xs =>
      cases q with
      | nil => simp [gaPre]
      | cons y ys =>
        simp only [gaPre]
        rw [if_neg (by simp), if_neg (by simp)]
        exact isCmp_cmpPre.range (x :: xs) (y :: ys)
  · intro p q r h1 h2
    cases p with
    | nil =>
      cases q with
      | nil => simp [gaPre, cmpPre] at h1
      | cons y ys => simp [gaPre] at h1
    | cons x xs =>
      cases q with
      | nil =>
        cases r with
        | nil => simp [gaPre, cmpPre] at h2
        | cons z zs => simp [gaPre] at h2
      | cons y ys =>
        have h1' : cmpPre (x :: xs) (y :: ys) = -1 := by
          simpa [gaPre] using h1
        cases r with
        | nil => simp [gaPre]
        | cons z zs =>
          have h2' : cmpPre (y :: ys) (z :: zs) = -1 := by
            simpa [gaPre] using h2
          simpa [gaPre] using isCmp_cmpPre.trans _ _ _ h1' h2'
  · intro p q r h
    cases p with
    | nil =>
      cases q with
      | nil => rfl
      | cons y ys => simp [gaPre] at h
    | cons x xs =>
      cases q with
      | nil => simp [gaPre] at h
      | cons y ys =>
        have h' : cmpPre (x :: xs) (y :: ys) = 0 := by
          simpa [gaPre] using h
        cases r with
        | nil => simp [gaPre]
        | cons z zs =>
          simpa [gaPre] using isCmp_cmpPre.congr _ _ (z :: zs) h'

/-- `compare_semver` as a lexicographic composition of the component
comparators. -/
def svCmpAlt : SemVer → SemVer → Int :=
  cmpThen (fun x y => natCmp x.major y.major)
    (cmpThen (fun x y => natCmp x.minor y.minor)
      (cmpThen (fun x y => natCmp x.patch y.patch)
        (fun x y => gaPre x.prerelease y.prerelease)))

theorem isCmp_svCmpAlt : IsCmp svCmpAlt := by
  unfold svCmpAlt
  exact IsCmp.cmpThen (isCmp_natCmp.comap (fun v : SemVer => v.major))
    (IsCmp.cmpThen (isCmp_natCmp.comap (fun v : SemVer => v.minor))
      (IsCmp.cmpThen (isCmp_natCmp.comap (fun v : SemVer => v.patch))
        (isCmp_gaPre.comap (fun v : SemVer => v.prerelease))))

theorem natCmp_eq_zero {m n : Nat} (h : m = n) : natCmp m n = 0 := by
  simp [natCmp, h]

theorem natCmp_ne_simp {m n : Nat} (h : m ≠ n) :
    natCmp m n = (if m < n then -1 else 1) ∧ natCmp m n ≠ 0 := by
  rcases Nat.lt_trichotomy m n with hl | hl | hl
  · simp [natCmp, hl]
  · exact absurd hl h
  · constructor
    · simp [natCmp, Nat.lt_asymm hl, hl]
    · simp [natCmp, Nat.lt_asymm hl, hl]

theorem compare_semver_eq_alt (a b : SemVer) :
    compare_semver a b = svCmpAlt a b := by
  simp only [compare_semver, svCmpAlt, cmpThen]
  by_cases h1 : a.major = b.major
  · rw [if_neg (by simpa using h1), if_pos (natCmp_eq_zero h1)]
    by_cases h2 : a.minor = b.minor
    · rw [if_neg (by simpa using h2), if_pos (natCmp_eq_zero h2)]
      by_cases h3 : a.patch = b.patch
      · rw [if_neg (by simpa using h3), if_pos (natCmp_eq_zero h3)]
        simp [gaPre]
      · obtain ⟨he, hne⟩ := natCmp_ne_simp h3
        rw [if_pos h3, if_neg hne, he]
    · obtain ⟨he, hne⟩ := natCmp_ne_simp h2
      rw [if_pos h2, if_neg hne, he]
  · obtain ⟨he, hne⟩ := natCmp_ne_simp h1
    rw [if_pos h1, if_neg hne, he]

theorem isCmp_compare_semver : IsCmp compare_semver :=
  IsCmp.ofEq compare_semver_eq_alt isCmp_svCmpAlt

/-- C4: the comparator is a total order on parseable versions: reflexive
(`compare(a,a) = equal`), antisymmetric (`compare(a,b) = less` iff
`compare(b,a) = greater`), and transitive on `less`. -/
theorem compare_semver_total_order :
    (∀ s a, SemVer.parse s = some a → compare_semver a a = 0) ∧
    (∀ s t a b, SemVer.parse s = some a → SemVer.parse t = some b →
      (compare_semver a b = -1 ↔ compare_semver b a = 1)) ∧
    (∀ s t u a b c, SemVer.parse s = some a → SemVer.parse t = some b →
      SemVer.parse u = some c → compare_semver a b = -1 →
      compare_semver b c = -1 → compare_semver a c = -1) := by
  refine ⟨?_, ?_, ?_⟩
  · intro s a _
    exact isCmp_compare_semver.refl a
  · intro s t a b _ _
    have hneg := isCmp_compare_semver.neg a b
    constructor
    · intro h
      omega
    · intro h
      omega
  · intro s t u a b c _ _ _ h1 h2
    exact isCmp_compare_semver.trans a b c h1 h2

/-- Witness for C4 at the parseable versions 1.2.3, 1.2.4 and 2.0.0. -/
theorem compare_semver_total_order_witness :
    compare_semver ⟨1, 2, 3, [], "1.2.3"⟩ ⟨1, 2, 3, [], "1.2.3"⟩ = 0 ∧
    (compare_semver ⟨1, 2, 3, [], "1.2.3"⟩ ⟨1, 2, 4, [], "1.2.4"⟩ = -1 ↔
      compare_semver ⟨1, 2, 4, [], "1.2.4"⟩ ⟨1, 2, 3, [], "1.2.3"⟩ = 1) ∧
    compare_semver ⟨1, 2, 3, [], "1.2.3"⟩ ⟨2, 0, 0, [], "2.0.0"⟩ = -1 := by
  refine ⟨?_, ?_, ?_⟩
  · exact compare_semver_total_order.1 "1.2.3" ⟨1, 2, 3, [], "1.2.3"⟩ (by decide)
  · exact compare_semver_total_order.2.1 "1.2.3" "1.2.4"
      ⟨1, 2, 3, [], "1.2.3"⟩ ⟨1, 2, 4, [], "1.2.4"⟩ (by decide) (by decide)
  · exact compare_semver_total_order.2.2 "1.2.3" "1.2.4" "2.0.0"
      ⟨1, 2, 3, [], "1.2.3"⟩ ⟨1, 2, 4, [], "1.2.4"⟩ ⟨2, 0, 0, [], "2.0.0"⟩
      (by decide) (by decide) (by decide) (by decide) (by decide)

theorem cmpPre_append_common (common p q : List String) :
    cmpPre (common ++ p) (common ++ q) = cmpPre p q := by
  induction common with
  | nil => rfl
  | cons t ts ih => simp [cmpPre, isCmp_tokCompare.refl t, ih]

theorem cmpPre_self_append (p : List String) (z : String) (zs : List String) :
    cmpPre p (p ++ z :: zs) = -1 := by
  induction p with
  | nil => simp [cmpPre]
  | cons x xs ih => simp [cmpPre, isCmp_tokCompare.refl x, ih]

theorem compare_semver_pre {a b : SemVer} (h1 : a.major = b.major)
    (h2 : a.minor = b.minor) (h3 : a.patch = b.patch)
    (hp : a.prerelease ≠ []) (hq : b.prerelease ≠ []) :
    compare_semver a b = cmpPre a.prerelease b.prerelease := by
  simp [compare_semver, h1, h2, h3, hp, hq]

theorem tokCompare_num_lt {x y : String} (hx : isNumTok x = true)
    (hy : isNumTok y = true) (h : tokToNat x < tokToNat y) :
    tokCompare x y = -1 := by
  have hxy : x ≠ y := by
    intro he
    subst he
    omega
  simp [tokCompare, hxy, hx, hy, h]

theorem tokCompare_num_nonnum {x y : String} (hx : isNumTok x = true)
    (hy : isNumTok y = false) : tokCompare x y = -1 := by
  have hxy : x ≠ y := by
    intro he
    subst he
    rw [hx] at hy
    exact Bool.noConfusion hy
  simp [tokCompare, hxy, hx, hy]

theorem tokCompare_str_lt {x y : String} (hx : isNumTok x = false)
    (hy : isNumTok y = false) (hne : x ≠ y) (hlt : strLtB x y = true) :
    tokCompare x y = -1 := by
  simp [tokCompare, hne, hx, hy, hlt]

theorem cmpPre_head_lt {x y : String} {xs ys : List String}
    (h : tokCompare x y = -1) : cmpPre (x :: xs) (y :: ys) = -1 := by
  simp [cmpPre, h]

/-- C5: the comparator orders prereleases per SemVer precedence: at an
equal numeric triple, GA (empty prerelease) is strictly greater than any
prerelease; after any common token prefix, unequal numeric tokens compare
numerically, a numeric token is less than a non-numeric one, and
non-numeric tokens compare lexicographically; a strict-prefix prerelease
sequence is less; in particular 1.0.0-alpha < 1.0.0,
1.0.0-alpha < 1.0.0-alpha.1, 1.0.0-alpha.1 < 1.0.0-alpha.beta, and
1.0.0-beta.2 < 1.0.0-beta.11. -/
theorem compare_semver_prerelease_rules :
    (∀ a b : SemVer, a.major = b.major → a.minor = b.minor →
      a.patch = b.patch → a.prerelease = [] → b.prerelease ≠ [] →
      compare_semver a b = 1) ∧
    (∀ a b : SemVer, ∀ common x y xs ys, a.major = b.major →
      a.minor = b.minor → a.patch = b.patch →
      a.prerelease = common ++ x :: xs → b.prerelease = common ++ y :: ys →
      isNumTok x = true → isNumTok y = true → tokToNat x < tokToNat y →
      compare_semver a b = -1) ∧
    (∀ a b : SemVer, ∀ common x y xs ys, a.major = b.major →
      a.minor = b.minor → a.patch = b.patch →
      a.prerelease = common ++ x :: xs → b.prerelease = common ++ y :: ys →
      isNumTok x = true → isNumTok y = false →
      compare_semver a b = -1) ∧
    (∀ a b : SemVer, ∀ common x y xs ys, a.major = b.major →
      a.minor = b.minor → a.patch = b.patch →
      a.prerelease = common ++ x :: xs → b.prerelease = common ++ y :: ys →
      isNumTok x = false → isNumTok y = false → x ≠ y → strLtB x y = true →
      compare_semver a b = -1) ∧
    (∀ a b : SemVer, ∀ z zs, a.major = b.major → a.minor = b.minor →
      a.patch = b.patch → a.prerelease ≠ [] →
      b.prerelease = a.prerelease ++ z :: zs → compare_semver a b = -1) ∧
    parseCmp "1.0.0-alpha" "1.0.0" = some (-1) ∧
    parseCmp "1.0.0-alpha" "1.0.0-alpha.1" = some (-1) ∧
    parseCmp "1.0.0-alpha.1" "1.0.0-alpha.beta" = some (-1) ∧
    parseCmp "1.0.0-beta.2" "1.0.0-beta.11" = some (-1) := by
  refine ⟨?_, ?_, ?_, ?_, ?_, by decide, by decide, by decide, by decide⟩
  · intro a b h1 h2 h3 hp hq
    simp [compare_semver, h1, h2, h3, hp, hq]
  · intro a b common x y xs ys h1 h2 h3 hp hq hx hy hlt
    rw [compare_semver_pre h1 h2 h3 (by simp [hp]) (by simp [hq]), hp, hq,
      cmpPre_append_common]
    exact cmpPre_head_lt (tokCompare_num_lt hx hy hlt)
  · intro a b common x y xs ys h1 h2 h3 hp hq hx hy
    rw [compare_semver_pre h1 h2 h3 (by simp [hp]) (by simp [hq]), hp, hq,
      cmpPre_append_common]
    exact cmpPre_head_lt (tokCompare_num_nonnum hx hy)
  · intro a b common x y xs ys h1 h2 h3 hp hq hx hy hne hlt
    rw [compare_semver_pre h1 h2 h3 (by simp [hp]) (by simp [hq]), hp, hq,
      cmpPre_append_common]
    exact cmpPre_head_lt (tokCompare_str_lt hx hy hne hlt)
  · intro a b z zs h1 h2 h3 hp hq
    rw [compare_semver_pre h1 h2 h3 hp (by simp [hq]), hq]
    exact cmpPre_self_append a.prerelease z zs

/-- Witness for C5: each rule applied at a concrete pair of versions. -/
theorem compare_semver_prerelease_rules_witness :
    compare_semver ⟨1, 0, 0, [], "1.0.0"⟩ ⟨1, 0, 0, ["alpha"], "1.0.0-alpha"⟩ = 1 ∧
    compare_semver ⟨1, 0, 0, ["beta", "2"], "1.0.0-beta.2"⟩
      ⟨1, 0, 0, ["beta", "11"], "1.0.0-beta.11"⟩ = -1 ∧
    compare_semver ⟨1, 0, 0, ["alpha", "1"], "1.0.0-alpha.1"⟩
      ⟨1, 0, 0, ["alpha", "beta"], "1.0.0-alpha.beta"⟩ = -1 ∧
    compare_semver ⟨1, 0, 0, ["alpha"], "1.0.0-alpha"⟩
      ⟨1, 0, 0, ["beta"], "1.0.0-beta"⟩ = -1 ∧
    compare_semver ⟨1, 0, 0, ["alpha"], "1.0.0-alpha"⟩
      ⟨1, 0, 0, ["alpha", "1"], "1.0.0-alpha.1"⟩ = -1 := by
  refine ⟨?_, ?_, ?_, ?_, ?_⟩
  · exact compare_semver_prerelease_rules.1 _ _ rfl rfl rfl rfl (by decide)
  · exact compare_semver_prerelease_rules.2.1 _ _ ["beta"] "2" "11" [] []
      rfl rfl rfl rfl rfl (by decide) (by decide) (by decide)
  · exact compare_semver_prerelease_rules.2.2.1 _ _ ["alpha"] "1" "beta" [] []
      rfl rfl rfl rfl rfl (by decide) (by decide)
  · exact compare_semver_prerelease_rules.2.2.2.1 _ _ [] "alpha" "beta" [] []
      rfl rfl rfl rfl rfl (by decide) (by decide) (by decide) (by decide)
  · exact compare_semver_prerelease_rules.2.2.2.2.1 _ _ "1" []
      rfl rfl rfl (by decide) rfl

/- ------------------------- snapshot lemmas ------------------------- -/

theorem lookupLast_eq_none {l : List NormRecord} {v : String} :
    lookupLast l v = none ↔ ∀ r ∈ l, r.version ≠ v := by
  induction l with
  | nil => simp [lookupLast]
  | cons x xs ih =>
    constructor
    · intro h r hr
      simp only [lookupLast] at h
      rcases hx : lookupLast xs v with _ | t
      · rw [hx] at h
        rcases List.mem_cons.mp hr with hr' | hr'
        · subst hr'
          intro hv
          rw [if_pos hv] at h
          exact Option.noConfusion h
        · exact ih.mp hx r hr'
      · rw [hx] at h
        exact Option.noConfusion h
    · intro h
      simp only [lookupLast]
      rw [ih.mpr (fun r hr => h r (List.mem_cons_of_mem x hr))]
      rw [if_neg (h x (List.mem_cons_self x xs))]

theorem insertAscByKey_perm (key : NormRecord → Nat) (x : NormRecord)
    (l : List NormRecord) : (insertAscByKey key x l).Perm (x :: l) := by
  induction l with
  | nil => exact List.Perm.refl _
  | cons y ys ih =>
    simp only [insertAscByKey]
    by_cases h : key x < key y
    · rw [if_pos h]
    · rw [if_neg h]
      exact (ih.cons y).trans (List.Perm.swap x y ys)

theorem sortAscByKey_foldl_perm (key : NormRecord → Nat) :
    ∀ (l acc : List NormRecord),
      (l.foldl (fun acc x => insertAscByKey key x acc) acc).Perm (acc ++ l) := by
  intro l
  induction l with
  | nil =>
    intro acc
    simp
  | cons x xs ih =>
    intro acc
    simp only [List.foldl_cons]
    have h1 := ih (insertAscByKey key x acc)
    have h2 : (insertAscByKey key x acc ++ xs).Perm (acc ++ x :: xs) := by
      have h3 : (insertAscByKey key x acc ++ xs).Perm ((x :: acc) ++ xs) :=
        (insertAscByKey_perm key x acc).append_right xs
      exact h3.trans (List.perm_middle.symm)
    exact h1.trans h2

theorem sortAscByKey_perm (key : NormRecord → Nat) (l : List NormRecord) :
    (sortAscByKey key l).Perm l := by
  simpa using sortAscByKey_foldl_perm key l []

theorem get_prod_versions_perm (vs : List RawRecord) :
    (get_prod_versions vs).Perm (eligibleRecords vs) := by
  simp only [get_prod_versions]
  exact sortAscByKey_perm _ _

/- ------------------------- C3: dry-run refinement ------------------------- -/

/-- C3: on any snapshot, the dry run computes exactly the same outcome
(target lookup, had-latest decision, successor selection) as the live run
and issues zero mutating calls. -/
theorem rollback_dry_run_equiv :
    ∀ (vs : List RawRecord) (tv : String),
      (rollback_in_prod vs tv true).1 = (rollback_in_prod vs tv false).1 ∧
      (rollback_in_prod vs tv true).2 = [] := by
  intro vs tv
  rcases h : lookupLast (get_prod_versions vs) tv with _ | t
  · simp [rollback_in_prod, h]
  · by_cases hl : (t.tag == LATEST_TAG) = true
    · rcases hp : pick_next_latest (get_prod_versions vs) tv with _ | cand
      · simp [rollback_in_prod, h, hl, hp, backup_tag_then_patch]
      · simp [rollback_in_prod, h, hl, hp, backup_tag_then_patch]
    · have hl' : (t.tag == LATEST_TAG) = false := by
        revert hl
        cases t.tag == LATEST_TAG <;> simp
      simp [rollback_in_prod, h, hl', backup_tag_then_patch]

/- ------------------------- C6: target not found ------------------------- -/

/-- C6: when the target version string does not occur among the eligible
records, rollback fails with the target-not-found error, issues no
mutating patch call, and the CLI exits non-zero. -/
theorem rollback_target_not_found (vs : List RawRecord) (tv : String)
    (dry : Bool) (h : ∀ r ∈ get_prod_versions vs, r.version ≠ tv) :
    rollback_in_prod vs tv dry =
      (Except.error ("Target version not found in PROD set: " ++ tv), []) ∧
    mainExitCode vs tv dry ≠ 0 := by
  have hl : lookupLast (get_prod_versions vs) tv = none := lookupLast_eq_none.mpr h
  constructor
  · simp [rollback_in_prod, hl]
  · simp [mainExitCode, rollback_in_prod, hl]

/-- Witness for C6: a snapshot holding only 1.0.0, target 9.9.9. -/
theorem rollback_target_not_found_witness :
    rollback_in_prod [⟨some "1.0.0", some "latest", some "RELEASED"⟩] "9.9.9" false =
      (Except.error ("Target version not found in PROD set: " ++ "9.9.9"), []) ∧
    mainExitCode [⟨some "1.0.0", some "latest", some "RELEASED"⟩] "9.9.9" false ≠ 0 :=
  rollback_target_not_found _ _ _ (by decide)

/- ------------------------- C9: already-quarantined target ------------------------- -/

/-- C9: rolling back a target whose current tag is already `quarantine`
is accepted without a guard: the single patch backs up `quarantine` as
the "original" tag and sets the tag to `quarantine` again, and no
latest-reassignment is attempted. -/
theorem rollback_already_quarantined (vs : List RawRecord) (tv : String)
    (t : NormRecord) (h1 : lookupLast (get_prod_versions vs) tv = some t)
    (h2 : t.tag = QUARANTINE_TAG) :
    rollback_in_prod vs tv false =
      (Except.ok RollbackOutcome.rolledBackNonLatest,
       [{ version := tv, tag := some QUARANTINE_TAG,
          properties := some [(BACKUP_BEFORE_QUARANTINE, [QUARANTINE_TAG])] }]) := by
  have hne : (t.tag == LATEST_TAG) = false := by
    rw [h2]
    decide
  simp [rollback_in_prod, h1, hne, backup_tag_then_patch, h2,
    (show QUARANTINE_TAG ≠ LATEST_TAG by decide)]

/-- Witness for C9: a single already-quarantined record rolled back again. -/
theorem rollback_already_quarantined_witness :
    rollback_in_prod [⟨some "1.0.0", some "quarantine", some "RELEASED"⟩] "1.0.0" false =
      (Except.ok RollbackOutcome.rolledBackNonLatest,
       [{ version := "1.0.0", tag := some QUARANTINE_TAG,
          properties := some [(BACKUP_BEFORE_QUARANTINE, [QUARANTINE_TAG])] }]) :=
  rollback_already_quarantined _ _ ⟨"1.0.0", "quarantine", "RELEASED"⟩
    (by decide) rfl

/- ------------------------- C10: case-insensitive eligibility ------------------------- -/

/-- C10: eligibility compares `release_status` case-insensitively — the
status string is uppercased before matching `TRUSTED_RELEASE`/`RELEASED`,
so records such as "released" or "Trusted_Release" are included, and every
record of the eligible snapshot stores the uppercased status. -/
theorem eligibility_case_insensitive :
    (∀ vs : List RawRecord, ∀ r ∈ get_prod_versions vs,
      r.release_status = TRUSTED ∨ r.release_status = RELEASED) ∧
    (∀ vs : List RawRecord, ∀ v ∈ vs,
      (strUpper (v.release_status.getD "") = TRUSTED ∨
        strUpper (v.release_status.getD "") = RELEASED) →
      normalizeRecord v ∈ get_prod_versions vs ∧
      (normalizeRecord v).release_status = strUpper (v.release_status.getD "")) := by
  constructor
  · intro vs r hr
    have hr' : r ∈ eligibleRecords vs := (get_prod_versions_perm vs).mem_iff.mp hr
    have hp := (List.mem_filter.mp hr').2
    rcases Bool.or_eq_true_iff.mp hp with h | h
    · exact Or.inl (by simpa using h)
    · exact Or.inr (by simpa using h)
  · intro vs v hv h
    constructor
    · have hm : normalizeRecord v ∈ eligibleRecords vs := by
        apply List.mem_filter.mpr
        constructor
        · exact List.mem_map_of_mem normalizeRecord hv
        · rcases h with h | h
          · simp [normalizeRecord, h]
          · simp [normalizeRecord, h]
      exact (get_prod_versions_perm vs).mem_iff.mpr hm
    · rfl

/-- Witness for C10: a lowercase "released" and a mixed-case
"Trusted_Release" record are both included, with uppercased status. -/
theorem eligibility_case_insensitive_witness :
    ((⟨"1.0.0", "", "RELEASED"⟩ : NormRecord).release_status = TRUSTED ∨
      (⟨"1.0.0", "", "RELEASED"⟩ : NormRecord).release_status = RELEASED) ∧
    (normalizeRecord ⟨some "1.0.0", some "", some "released"⟩ ∈
      get_prod_versions [⟨some "1.0.0", some "", some "released"⟩,
        ⟨some "2.0.0", some "", some "Trusted_Release"⟩] ∧
      (normalizeRecord ⟨some "1.0.0", some "", some "released"⟩).release_status =
        strUpper "released") ∧
    (normalizeRecord ⟨some "2.0.0", some "", some "Trusted_Release"⟩ ∈
      get_prod_versions [⟨some "1.0.0", some "", some "released"⟩,
        ⟨some "2.0.0", some "", some "Trusted_Release"⟩] ∧
      (normalizeRecord ⟨some "2.0.0", some "", some "Trusted_Release"⟩).release_status =
        strUpper "Trusted_Release") := by
  refine ⟨?_, ?_, ?_⟩
  · exact eligibility_case_insensitive.1
      [⟨some "1.0.0", some "", some "released"⟩] ⟨"1.0.0", "", "RELEASED"⟩ (by decide)
  · exact eligibility_case_insensitive.2 _ _ (List.mem_cons_self _ _) (by decide)
  · exact eligibility_case_insensitive.2 _ _
      (List.mem_cons_of_mem _ (List.mem_cons_self _ _)) (by decide)

/- ------------------------- C8: unparsable versions ------------------------- -/

/-- C8: version strings that fail SemVer parsing are silently excluded
from the descending sort (the mixed example list sorts to exactly
`["1.3.0"]`), yet the eligible snapshot keeps every eligible record
(it is a permutation of the filtered set, independent of parsing), and a
record present in the snapshot is always found as the rollback target by
exact literal-string lookup. -/
theorem unparsable_versions_kept :
    sort_versions_by_semver_desc ["1.2.x", "1.3.0", "not-a-version"] = ["1.3.0"] ∧
    (∀ vs : List RawRecord, (get_prod_versions vs).Perm (eligibleRecords vs)) ∧
    (∀ (vs : List RawRecord) (tv : String),
      (∃ r ∈ get_prod_versions vs, r.version = tv) →
      lookupLast (get_prod_versions vs) tv ≠ none) := by
  refine ⟨by decide, get_prod_versions_perm, ?_⟩
  intro vs tv h hnone
  rcases h with ⟨r, hr, hv⟩
  exact lookupLast_eq_none.mp hnone r hr hv

/-- Witness for C8: an eligible record with the unparsable version
"not-a-version" is still present and found as target. -/
theorem unparsable_versions_kept_witness :
    lookupLast (get_prod_versions [⟨some "not-a-version", some "", some "RELEASED"⟩,
      ⟨some "1.3.0", some "latest", some "RELEASED"⟩]) "not-a-version" ≠ none :=
  unparsable_versions_kept.2.2 _ "not-a-version"
    ⟨⟨"not-a-version", "", "RELEASED"⟩, by decide, rfl⟩

/- ------------------------- C1: backup invariant ------------------------- -/

theorem rollback_dry_log_nil (vs : List RawRecord) (tv : String) :
    (rollback_in_prod vs tv true).2 = [] := by
  rcases h : lookupLast (get_prod_versions vs) tv with _ | t
  · simp [rollback_in_prod, h]
  · by_cases hl : (t.tag == LATEST_TAG) = true
    · rcases hc : pick_next_latest (get_prod_versions vs) tv with _ | cand
      · simp [rollback_in_prod, h, hl, hc, backup_tag_then_patch]
      · simp [rollback_in_prod, h, hl, hc, backup_tag_then_patch]
    · have hl' : (t.tag == LATEST_TAG) = false := by
        revert hl
        cases t.tag == LATEST_TAG <;> simp
      simp [rollback_in_prod, h, hl', backup_tag_then_patch]

/-- C1: every mutating patch issued by rollback carries, in the same
single call, the record's pre-mutation tag as a one-element list under
the matching backup key: the target's patch pairs
`original_tag_before_quarantine = [old tag]` with `tag = quarantine`, and
the successor's patch pairs `original_tag_before_latest = [old tag]` with
`tag = latest`; no other patch is ever issued. -/
theorem patch_backup_invariant (vs : List RawRecord) (tv : String) (dry : Bool) :
    ∀ p ∈ (rollback_in_prod vs tv dry).2,
      (p.tag = some QUARANTINE_TAG ∧ p.version = tv ∧
        (∃ t, lookupLast (get_prod_versions vs) tv = some t ∧
          p.properties = some [(BACKUP_BEFORE_QUARANTINE, [t.tag])])) ∨
      (p.tag = some LATEST_TAG ∧
        (∃ c, pick_next_latest (get_prod_versions vs) tv = some c ∧
          p.version = c.version ∧
          p.properties = some [(BACKUP_BEFORE_LATEST, [c.tag])])) := by
  intro p hp
  cases dry with
  | true =>
    rw [rollback_dry_log_nil vs tv] at hp
    simp at hp
  | false =>
    rcases h : lookupLast (get_prod_versions vs) tv with _ | t
    · simp [rollback_in_prod, h] at hp
    · by_cases hl : (t.tag == LATEST_TAG) = true
      · rcases hc : pick_next_latest (get_prod_versions vs) tv with _ | cand
        · simp [rollback_in_prod, h, hl, hc, backup_tag_then_patch] at hp
          subst hp
          exact Or.inl ⟨rfl, rfl, t, rfl, rfl⟩
        · simp [rollback_in_prod, h, hl, hc, backup_tag_then_patch] at hp
          rcases hp with hp | hp
          · subst hp
            exact Or.inl ⟨rfl, rfl, t, rfl, rfl⟩
          · subst hp
            exact Or.inr ⟨rfl, cand, rfl, rfl, rfl⟩
      · have hl' : (t.tag == LATEST_TAG) = false := by
          revert hl
          cases t.tag == LATEST_TAG <;> simp
        simp [rollback_in_prod, h, hl', backup_tag_then_patch] at hp
        subst hp
        exact Or.inl ⟨rfl, rfl, t, rfl, rfl⟩

/-- Witness for C1: the quarantine patch of a live rollback of 1.4.0
carries its backup property. -/
theorem patch_backup_invariant_witness :
    ({ version := "1.4.0", tag := some QUARANTINE_TAG,
       properties := some [(BACKUP_BEFORE_QUARANTINE, ["latest"])]} : PatchCall).tag =
        some QUARANTINE_TAG ∧
      ({ version := "1.4.0", tag := some QUARANTINE_TAG,
         properties := some [(BACKUP_BEFORE_QUARANTINE, ["latest"])]} : PatchCall).version =
        "1.4.0" ∧
      (∃ t, lookupLast (get_prod_versions
          [⟨some "1.4.0", some "latest", some "RELEASED"⟩,
           ⟨some "1.3.2", some "", some "RELEASED"⟩]) "1.4.0" = some t ∧
        ({ version := "1.4.0", tag := some QUARANTINE_TAG,
           properties := some [(BACKUP_BEFORE_QUARANTINE, ["latest"])]} : PatchCall).properties =
          some [(BACKUP_BEFORE_QUARANTINE, [t.tag])]) ∨
    (({ version := "1.4.0", tag := some QUARANTINE_TAG,
        properties := some [(BACKUP_BEFORE_QUARANTINE, ["latest"])]} : PatchCall).tag =
        some LATEST_TAG ∧
      (∃ c, pick_next_latest (get_prod_versions
          [⟨some "1.4.0", some "latest", some "RELEASED"⟩,
           ⟨some "1.3.2", some "", some "RELEASED"⟩]) "1.4.0" = some c ∧
        ({ version := "1.4.0", tag := some QUARANTINE_TAG,
           properties := some [(BACKUP_BEFORE_QUARANTINE, ["latest"])]} : PatchCall).version =
          c.version ∧
        ({ version := "1.4.0", tag := some QUARANTINE_TAG,
           properties := some [(BACKUP_BEFORE_QUARANTINE, ["latest"])]} : PatchCall).properties =
          some [(BACKUP_BEFORE_LATEST, [c.tag])])) := by
  have h := patch_backup_invariant
    [⟨some "1.4.0", some "latest", some "RELEASED"⟩,
     ⟨some "1.3.2", some "", some "RELEASED"⟩] "1.4.0" false
    { version := "1.4.0", tag := some QUARANTINE_TAG,
      properties := some [(BACKUP_BEFORE_QUARANTINE, ["latest"])] }
    (by decide)
  rcases h with ⟨h1, h2, h3⟩ | h
  · exact Or.inl ⟨h1, h2, h3⟩
  · exact Or.inr h

/- ------------------------- C7: latest reassignment iff ------------------------- -/

/-- C7: a latest-reassignment patch is issued iff the target's
pre-mutation tag was exactly `latest` and a successor exists; when the
target held `latest` but no successor exists, the run ends successfully
(exit code 0) with only the target's quarantine patch issued. -/
theorem latest_reassignment_iff (vs : List RawRecord) (tv : String)
    (t : NormRecord) (ht : lookupLast (get_prod_versions vs) tv = some t) :
    ((∃ p ∈ (rollback_in_prod vs tv false).2, p.tag = some LATEST_TAG) ↔
      (t.tag = LATEST_TAG ∧ pick_next_latest (get_prod_versions vs) tv ≠ none)) ∧
    (t.tag = LATEST_TAG → pick_next_latest (get_prod_versions vs) tv = none →
      rollback_in_prod vs tv false =
        (Except.ok RollbackOutcome.noSuccessor,
         [{ version := tv, tag := some QUARANTINE_TAG,
            properties := some [(BACKUP_BEFORE_QUARANTINE, [t.tag])] }]) ∧
      mainExitCode vs tv false = 0) := by
  by_cases hl : (t.tag == LATEST_TAG) = true
  · have hlp : t.tag = LATEST_TAG := by simpa using hl
    rcases hc : pick_next_latest (get_prod_versions vs) tv with _ | cand
    · constructor
      · constructor
        · rintro ⟨p, hp, hpt⟩
          simp [rollback_in_prod, ht, hl, hc, backup_tag_then_patch] at hp
          subst hp
          exact absurd hpt (by simp [QUARANTINE_TAG, LATEST_TAG])
        · rintro ⟨_, hne⟩
          exact absurd rfl hne
      · intro _ _
        constructor
        · simp [rollback_in_prod, ht, hl, hc, backup_tag_then_patch]
        · simp [mainExitCode, rollback_in_prod, ht, hl, hc]
    · constructor
      · constructor
        · intro _
          refine ⟨hlp, ?_⟩
          exact fun hcn => Option.noConfusion hcn
        · intro _
          have hm : (rollback_in_prod vs tv false).2 =
              [{ version := tv, tag := some QUARANTINE_TAG,
                 properties := some [(BACKUP_BEFORE_QUARANTINE, [t.tag])] },
               { version := cand.version, tag := some LATEST_TAG,
                 properties := some [(BACKUP_BEFORE_LATEST, [cand.tag])] }] := by
            simp [rollback_in_prod, ht, hl, hc, backup_tag_then_patch]
          rw [hm]
          refine ⟨_, List.mem_cons_of_mem _ (List.mem_cons_self _ _), rfl⟩
      · intro _ hcn
        exact Option.noConfusion hcn
  · have hlp : t.tag ≠ LATEST_TAG := by simpa using hl
    have hl' : (t.tag == LATEST_TAG) = false := by
      revert hl
      cases t.tag == LATEST_TAG <;> simp
    constructor
    · constructor
      · rintro ⟨p, hp, hpt⟩
        simp [rollback_in_prod, ht, hl', backup_tag_then_patch] at hp
        subst hp
        exact absurd hpt (by simp [QUARANTINE_TAG, LATEST_TAG])
      · rintro ⟨hL, _⟩
        exact absurd hL hlp
    · intro hL _
      exact absurd hL hlp

/-- Witness for C7: a sole latest-tagged version rolled back has no
successor, exits 0, and only its quarantine patch is issued. -/
theorem latest_reassignment_iff_witness :
    ((∃ p ∈ (rollback_in_prod [⟨some "1.4.0", some "latest", some "RELEASED"⟩]
        "1.4.0" false).2, p.tag = some LATEST_TAG) ↔
      (("latest" : String) = LATEST_TAG ∧
        pick_next_latest (get_prod_versions
          [⟨some "1.4.0", some "latest", some "RELEASED"⟩]) "1.4.0" ≠ none)) ∧
    (("latest" : String) = LATEST_TAG →
      pick_next_latest (get_prod_versions
        [⟨some "1.4.0", some "latest", some "RELEASED"⟩]) "1.4.0" = none →
      rollback_in_prod [⟨some "1.4.0", some "latest", some "RELEASED"⟩] "1.4.0" false =
        (Except.ok RollbackOutcome.noSuccessor,
         [{ version := "1.4.0", tag := some QUARANTINE_TAG,
            properties := some [(BACKUP_BEFORE_QUARANTINE, ["latest"])] }]) ∧
      mainExitCode [⟨some "1.4.0", some "latest", some "RELEASED"⟩] "1.4.0" false = 0) :=
  latest_reassignment_iff [⟨some "1.4.0", some "latest", some "RELEASED"⟩] "1.4.0"
    ⟨"1.4.0", "latest", "RELEASED"⟩ (by decide)

/- ------------------------- C2: successor selection ------------------------- -/

/-- The order `get_prod_versions` establishes between two version strings:
parseable versions descending by `compare_semver`, unparseable versions
after every parseable one. -/
def snapGeB (x y : String) : Bool :=
  match SemVer.parse x, SemVer.parse y with
  | some a, some b => decide (0 ≤ compare_semver a b)
  | some _, none => true
  | none, none => true
  | none, some _ => false

theorem snapGeB_refl (v : String) : snapGeB v v = true := by
  unfold snapGeB
  cases h : SemVer.parse v with
  | none => rfl
  | some a => simp [isCmp_compare_semver.refl a]

/-- `pick_next_latest` selects by the first record whose version string
survives into `ordered_unique`, then tie-breaks within that version
string. -/
theorem pick_next_latest_eq (l : List NormRecord) (tv : String) :
    pick_next_latest l tv =
      (match l.filter (fun v => v.version != tv &&
          (List.map (fun v => v.version) (l.filter (keptPred tv))).contains v.version) with
       | [] => none
       | r0 :: _ => specTieBreak ((l.filter (keptPred tv)).filter
           (fun v => v.version == r0.version))) := by
  simp only [pick_next_latest]
  cases hk : l.filter (keptPred tv) with
  | nil => simp
  | cons k ks =>
    cases hl2 : l.filter (fun v => v.version != tv &&
        (List.map (fun v => v.version) (k :: ks)).contains v.version) with
    | nil => simp [firstDedup, orderedUniqueAux]
    | cons r0 rest => simp [firstDedup, orderedUniqueAux, specTieBreak]

theorem mem_kept_mem_ordered {l : List NormRecord} {tv : String} {r : NormRecord}
    (hr : r ∈ l.filter (keptPred tv)) :
    r ∈ l.filter (fun v => v.version != tv &&
      (List.map (fun v => v.version) (l.filter (keptPred tv))).contains v.version) := by
  have h1 := List.mem_filter.mp hr
  apply List.mem_filter.mpr
  refine ⟨h1.1, ?_⟩
  have hkp : keptPred tv r = true := h1.2
  simp only [keptPred, Bool.and_eq_true] at hkp
  have hne : (r.version != tv) = true := hkp.1
  have hv : r.version ∈ List.map (fun v => v.version) (l.filter (keptPred tv)) :=
    List.mem_map_of_mem (fun v => v.version) hr
  rw [hne, Bool.true_and]
  exact List.elem_eq_true_of_mem hv

theorem specTieBreak_mem {cands : List NormRecord} (h : cands ≠ []) :
    ∃ c, specTieBreak cands = some c ∧ c ∈ cands := by
  unfold specTieBreak
  cases ht : cands.filter (fun v => v.release_status == TRUSTED) with
  | cons t ts =>
    refine ⟨t, rfl, ?_⟩
    exact List.mem_of_mem_filter (ht ▸ List.mem_cons_self t ts)
  | nil =>
    cases cands with
    | nil => exact absurd rfl h
    | cons c cs => exact ⟨c, rfl, List.mem_cons_self c cs⟩

/-- C2: for a SemVer-descending-sorted eligible snapshot, successor
selection returns no record exactly when no candidate remains after
excluding the target's version and quarantined records; a returned
successor is such a candidate, bears a SemVer-maximum version string among
all remaining candidates, and is exactly the trusted-preferring
tie-break among the candidates sharing its version string. -/
theorem pick_next_latest_spec (l : List NormRecord) (tv : String)
    (hs : l.Pairwise (fun a b => snapGeB a.version b.version = true)) :
    (pick_next_latest l tv = none ↔ l.filter (keptPred tv) = []) ∧
    (∀ c, pick_next_latest l tv = some c →
      c ∈ l.filter (keptPred tv) ∧
      (∀ r ∈ l.filter (keptPred tv), snapGeB c.version r.version = true) ∧
      specTieBreak ((l.filter (keptPred tv)).filter
        (fun v => v.version == c.version)) = some c) := by
  have hchar := pick_next_latest_eq l tv
  cases hl2 : l.filter (fun v => v.version != tv &&
      (List.map (fun v => v.version) (l.filter (keptPred tv))).contains v.version) with
  | nil =>
    rw [hl2] at hchar
    have hnone : pick_next_latest l tv = none := hchar
    constructor
    · rw [hnone]
      constructor
      · intro _
        cases hk : l.filter (keptPred tv) with
        | nil => rfl
        | cons k ks =>
          have hm : k ∈ l.filter (keptPred tv) := hk ▸ List.mem_cons_self k ks
          have h2 := mem_kept_mem_ordered hm
          rw [hl2] at h2
          simp at h2
      · intro _
        rfl
    · intro c hc
      rw [hnone] at hc
      exact Option.noConfusion hc
  | cons r0 rest =>
    rw [hl2] at hchar
    have hchar' : pick_next_latest l tv =
        specTieBreak ((l.filter (keptPred tv)).filter
          (fun v => v.version == r0.version)) := hchar
    have hr0 : r0 ∈ l.filter (fun v => v.version != tv &&
        (List.map (fun v => v.version) (l.filter (keptPred tv))).contains v.version) :=
      hl2 ▸ List.mem_cons_self r0 rest
    have hr0k : (List.map (fun v => v.version)
        (l.filter (keptPred tv))).contains r0.version = true := by
      have h2 := (List.mem_filter.mp hr0).2
      simp only [Bool.and_eq_true] at h2
      exact h2.2
    have hcne : (l.filter (keptPred tv)).filter
        (fun v => v.version == r0.version) ≠ [] := by
      have hv : r0.version ∈ List.map (fun v => v.version) (l.filter (keptPred tv)) :=
        List.mem_of_elem_eq_true hr0k
      rcases List.mem_map.mp hv with ⟨k, hk, hkv⟩
      have hkc : k ∈ (l.filter (keptPred tv)).filter
          (fun v => v.version == r0.version) := by
        apply List.mem_filter.mpr
        refine ⟨hk, ?_⟩
        rw [hkv]
        exact beq_self_eq_true r0.version
      exact List.ne_nil_of_mem hkc
    obtain ⟨c0, htb, hc0⟩ := specTieBreak_mem hcne
    have hpick : pick_next_latest l tv = some c0 := hchar'.trans htb
    have hc0k : c0 ∈ l.filter (keptPred tv) := List.mem_of_mem_filter hc0
    have hc0v : c0.version = r0.version := by
      have := (List.mem_filter.mp hc0).2
      exact eq_of_beq this
    constructor
    · constructor
      · intro hn
        rw [hpick] at hn
        exact Option.noConfusion hn
      · intro hk
        apply absurd ?_ hcne
        rw [hk]
        rfl
    · intro c hc
      rw [hpick] at hc
      have hcc : c0 = c := Option.some.inj hc
      subst hcc
      refine ⟨hc0k, ?_, ?_⟩
      · intro r hr
        have h2 := mem_kept_mem_ordered hr
        rw [hl2] at h2
        rcases List.mem_cons.mp h2 with h3 | h3
        · rw [hc0v, h3]
          exact snapGeB_refl r0.version
        · have hsub : (l.filter (fun v => v.version != tv &&
              (List.map (fun v => v.version)
                (l.filter (keptPred tv))).contains v.version)).Pairwise
              (fun a b => snapGeB a.version b.version = true) :=
            hs.sublist (List.filter_sublist l)
          rw [hl2] at hsub
          have h4 := (List.pairwise_cons.mp hsub).1 r h3
          rw [hc0v]
          exact h4
      · rw [hc0v]
        exact htb

/-- Witness for C2: the duplicate-version scenario — rolling back 2.1.0
must select the TRUSTED_RELEASE record at 2.0.0. -/
theorem pick_next_latest_spec_witness :
    (pick_next_latest [⟨"2.1.0", "latest", "RELEASED"⟩,
        ⟨"2.0.0", "", "RELEASED"⟩, ⟨"2.0.0", "", "TRUSTED_RELEASE"⟩] "2.1.0" = none ↔
      ([⟨"2.1.0", "latest", "RELEASED"⟩, ⟨"2.0.0", "", "RELEASED"⟩,
        ⟨"2.0.0", "", "TRUSTED_RELEASE"⟩] : List NormRecord).filter
        (keptPred "2.1.0") = []) ∧
    (∀ c, pick_next_latest [⟨"2.1.0", "latest", "RELEASED"⟩,
        ⟨"2.0.0", "", "RELEASED"⟩, ⟨"2.0.0", "", "TRUSTED_RELEASE"⟩] "2.1.0" = some c →
      c ∈ ([⟨"2.1.0", "latest", "RELEASED"⟩, ⟨"2.0.0", "", "RELEASED"⟩,
        ⟨"2.0.0", "", "TRUSTED_RELEASE"⟩] : List NormRecord).filter (keptPred "2.1.0") ∧
      (∀ r ∈ ([⟨"2.1.0", "latest", "RELEASED"⟩, ⟨"2.0.0", "", "RELEASED"⟩,
        ⟨"2.0.0", "", "TRUSTED_RELEASE"⟩] : List NormRecord).filter (keptPred "2.1.0"),
        snapGeB c.version r.version = true) ∧
      specTieBreak ((([⟨"2.1.0", "latest", "RELEASED"⟩, ⟨"2.0.0", "", "RELEASED"⟩,
        ⟨"2.0.0", "", "TRUSTED_RELEASE"⟩] : List NormRecord).filter
          (keptPred "2.1.0")).filter (fun v => v.version == c.version)) = some c) :=
  pick_next_latest_spec _ _ (by decide)

end BookverseRollback
